import Mathlib

/-!
Verification of the TeamViewer artifact extraction engine
(`teamviewer_analyzer.py`): a shallow embedding of its parsers and
registry-value processing, with theorems settling the specification's
claims about them.

All primitive string operations (splitting, stripping, substring search,
replacement) are modelled explicitly over `List Char` so that every
definition evaluates inside the kernel on concrete inputs.
-/

namespace TeamViewer

/-! ## Python string primitives -/

/-- Characters Python's `str.split()` / `str.strip()` treat as whitespace. -/
def pyIsSpace (c : Char) : Bool :=
  c = ' ' || c = '\t' || c = '\n' || c = '\r' || c = '\x0b' || c = '\x0c'

/-- Python's `str.split(sep)` for a one-character separator, on character lists:
keeps empty pieces, never returns `[]`. -/
def splitList (sep : Char) : List Char → List (List Char)
  | [] => [[]]
  | x :: xs =>
    let r := splitList sep xs
    if x = sep then [] :: r
    else
      match r with
      | [] => [[x]]
      | h :: t => (x :: h) :: t

/-- Python's `s.split(sep)` for a one-character separator. -/
def pySplit (sep : Char) (s : String) : List String :=
  (splitList sep s.data).map String.mk

/-- Split on every character satisfying `p`, keeping empty pieces. -/
def splitByPred (p : Char → Bool) : List Char → List (List Char)
  | [] => [[]]
  | x :: xs =>
    let r := splitByPred p xs
    if p x then [] :: r
    else
      match r with
      | [] => [[x]]
      | h :: t => (x :: h) :: t

/-- Python's `str.split()` (no argument): split on whitespace runs, dropping
empty pieces. -/
def pySplitWhitespace (s : String) : List String :=
  ((splitByPred pyIsSpace s.data).filter (· ≠ [])).map String.mk

/-- Python's `str.strip()` on a character list: drop leading and trailing
whitespace. -/
def stripData (l : List Char) : List Char :=
  ((l.dropWhile pyIsSpace).reverse.dropWhile pyIsSpace).reverse

/-- Python's `str.strip()`. -/
def pyStrip (s : String) : String := ⟨stripData s.data⟩

/-- Does `pat` occur as a prefix of `l`? -/
def startsWith : List Char → List Char → Bool
  | [], _ => true
  | _ :: _, [] => false
  | p :: ps, x :: xs => p = x && startsWith ps xs

/-- Does `pat` occur contiguously somewhere in `l`?  Models Python's
`pat in s`. -/
def containsSeq (pat : List Char) : List Char → Bool
  | [] => startsWith pat []
  | x :: xs => startsWith pat (x :: xs) || containsSeq pat xs

/-- Python's `needle in hay` on strings. -/
def pyIn (needle hay : String) : Bool := containsSeq needle.data hay.data

/-- One step bound for `str.replace`: replace left-to-right, non-overlapping.
The fuel is the input length, enough because every step consumes at least
one character of the input (the pattern is non-empty in every use site). -/
def replaceSeq (pat rep : List Char) : Nat → List Char → List Char
  | 0, l => l
  | _, [] => []
  | fuel + 1, x :: xs =>
    if pat ≠ [] && startsWith pat (x :: xs) then
      rep ++ replaceSeq pat rep fuel ((x :: xs).drop pat.length)
    else
      x :: replaceSeq pat rep fuel xs

/-- Python's `s.replace(pat, rep)` (for non-empty `pat`). -/
def pyReplace (s pat rep : String) : String :=
  ⟨replaceSeq pat.data rep.data s.data.length s.data⟩

/-- Python 2 `str.isdigit()`: non-empty and every character in `0`–`9`. -/
def pyIsdigit (s : String) : Bool :=
  s.data ≠ [] && s.data.all Char.isDigit

/-- Numeric value of a list of decimal digit characters. -/
def digitsVal (l : List Char) : Nat :=
  l.foldl (fun a c => a * 10 + (c.toNat - '0'.toNat)) 0

/-- The first maximal run of decimal digits in `l`
(`re.findall("[0-9]+", e)[0]`), or `""` when `l` has no digit. -/
def firstDigitRun : List Char → String
  | [] => ""
  | c :: cs => if c.isDigit then ⟨c :: cs.takeWhile Char.isDigit⟩ else firstDigitRun cs

/-! ## `datetime.strptime(s, "%d-%m-%Y %H:%M:%S")`

The CPython `_strptime` regex for this format is
`(3[01]|[12]\d|0[1-9]|[1-9])-(1[0-2]|0[1-9]|[1-9])-(\d\d\d\d)
 (2[0-3]|[0-1]\d|\d):([0-5]\d|\d):(6[0-1]|[0-5]\d|\d)`, anchored at both
ends; a successful regex match is then handed to the `datetime` constructor,
which additionally requires `1 <= year`, a day no larger than the month's
length, and rejects leap seconds.  Because the separators are not digits,
the backtracking regex is equivalent to: split on the literal separators and
accept each all-digit field by its length/value window. -/

structure PyDateTime where
  year : Nat
  month : Nat
  day : Nat
  hour : Nat
  minute : Nat
  second : Nat
deriving DecidableEq, Repr

/-- A 1–2 digit numeric field of the `strptime` regex. -/
def fieldVal (l : List Char) : Option Nat :=
  if l ≠ [] && l.length ≤ 2 && l.all Char.isDigit then some (digitsVal l) else none

/-- The `%Y` field: exactly four digits. -/
def yearVal (l : List Char) : Option Nat :=
  if l.length = 4 && l.all Char.isDigit then some (digitsVal l) else none

def isLeapYear (y : Nat) : Bool :=
  y % 4 = 0 && (y % 100 ≠ 0 || y % 400 = 0)

def daysInMonth (y m : Nat) : Nat :=
  if m = 2 then (if isLeapYear y then 29 else 28)
  else if m = 4 || m = 6 || m = 9 || m = 11 then 30
  else 31

/-- Python's `datetime.strptime(s, "%d-%m-%Y %H:%M:%S")`, as `none` on
`ValueError`. -/
def strptimeDMYHMS (s : String) : Option PyDateTime :=
  match splitList ' ' s.data with
  | [dateCs, timeCs] =>
    match splitList '-' dateCs, splitList ':' timeCs with
    | [dCs, mCs, yCs], [hCs, miCs, sCs] =>
      match fieldVal dCs, fieldVal mCs, yearVal yCs,
            fieldVal hCs, fieldVal miCs, fieldVal sCs with
      | some d, some m, some y, some h, some mi, some sec =>
        -- regex windows, then the datetime-constructor checks
        if 1 ≤ d && d ≤ 31 && 1 ≤ m && m ≤ 12 && h ≤ 23 && mi ≤ 59 && sec ≤ 61
            && 1 ≤ y && sec ≤ 59 && d ≤ daysInMonth y m then
          some ⟨y, m, d, h, mi, sec⟩
        else none
      | _, _, _, _, _, _ => none
    | _, _ => none
  | _ => none

/-! ## IP address scanning (`identifyIpAddresses`)

The source applies `re.findall(r"\b\d{1,3}\.\d{1,3}\.\d{1,3}\.\d{1,3}\b", value)`
to every processed line or value.  `findall` scans left to right and returns
non-overlapping matches; after a match it resumes at the match's end.
Because `.` is not a digit and a digit is a word character, the backtracking
`\d{1,3}` groups are equivalent to taking the maximal digit run (at most 3
digits) at each position, and `\b` before a digit (resp. after one) holds
exactly when the previous (resp. next) character is absent or not a word
character. -/

/-- Python `\w` for an ASCII `str`: letters, digits, underscore. -/
def isWordChar (c : Char) : Bool := c.isAlphanum || c = '_'

/-- One `\d{1,3}\.` unit of the pattern: a maximal run of at most three
digits followed by a literal dot.  Returns the digits and the rest after
the dot. -/
def grabGroup (l : List Char) : Option (List Char × List Char) :=
  let ds := l.takeWhile Char.isDigit
  if 1 ≤ ds.length && ds.length ≤ 3 then
    match l.drop ds.length with
    | '.' :: rest => some (ds, rest)
    | _ => none
  else none

/-- The final `\d{1,3}\b` unit: a maximal run of at most three digits
followed by a word boundary (end of input or a non-word character). -/
def grabLast (l : List Char) : Option (List Char × List Char) :=
  let ds := l.takeWhile Char.isDigit
  if 1 ≤ ds.length && ds.length ≤ 3 then
    match l.drop ds.length with
    | [] => some (ds, [])
    | c :: rest => if isWordChar c then none else some (ds, c :: rest)
  else none

/-- Attempt to match `\d{1,3}\.\d{1,3}\.\d{1,3}\.\d{1,3}\b` at the head of
`l`; on success returns the matched characters and the remaining input. -/
def matchQuad (l : List Char) : Option (List Char × List Char) :=
  match grabGroup l with
  | none => none
  | some (d1, r1) =>
    match grabGroup r1 with
    | none => none
    | some (d2, r2) =>
      match grabGroup r2 with
      | none => none
      | some (d3, r3) =>
        match grabLast r3 with
        | none => none
        | some (d4, rest) =>
          some (d1 ++ ('.' :: (d2 ++ ('.' :: (d3 ++ ('.' :: d4))))), rest)

/-- The `findall` scan.  `prevWord` records whether the character before the
current position is a word character (for the leading `\b`); the fuel is the
input length, enough because every step consumes at least one character. -/
def scanIpAux : Nat → Bool → List Char → List String
  | 0, _, _ => []
  | _ + 1, _, [] => []
  | fuel + 1, prevWord, c :: cs =>
    if prevWord then scanIpAux fuel (isWordChar c) cs
    else
      match matchQuad (c :: cs) with
      | some (m, rest) => String.mk m :: scanIpAux fuel true rest
      | none => scanIpAux fuel (isWordChar c) cs

/-- Model of `identifyIpAddresses`: the list of IPv4-looking strings found
in `value` (each one becomes a `TSK_TEAMVIEWER_IP_ADDRESS` artifact). -/
def identifyIpAddresses (value : String) : List String :=
  scanIpAux value.data.length false value.data

/-! ## Connection files (`createTeamViewerConnectionArtefacts`,
`processConnectionFile`) -/

inductive Direction where
  | incoming
  | outgoing
deriving DecidableEq, Repr

/-- The `direction` as computed once per file from the file's unique path:
`"incoming" in path`. -/
def directionFromPath (path : String) : Direction :=
  if pyIn "incoming" path then .incoming else .outgoing

structure ConnectionRecord where
  direction : Direction
  peerId : String
  peerDisplayName : Option String
  connectionType : String
  startTime : Option PyDateTime
  endTime : Option PyDateTime
  rawFields : List String
deriving DecidableEq, Repr

/-- All records created by one `createTeamViewerConnectionArtefacts` call:
TeamViewer-ID records, username records, and the connection record itself. -/
structure ConnectionArtefacts where
  identities : List String
  usernames : List String
  connection : Option ConnectionRecord
deriving DecidableEq, Repr

/-- Model of `createTeamViewerConnectionArtefacts(abstractFile, valueList, artifact)`.
The caller guarantees `len(valueList) > 7`.  The start/end timestamps are
attached only when both date strings parse (`datetime.strptime` of either
raising `ValueError` skips both attributes); the epoch conversion
(`time.mktime`) is timezone presentation and the timestamps are modelled as
the parsed `PyDateTime` values. -/
def createTeamViewerConnectionArtefacts (valueList : List String)
    (direction : Direction) : ConnectionArtefacts :=
  if pyIsdigit (valueList.getD 0 "") then
    let extractedId := valueList.getD 0 ""
    let usernames : List String :=
      match direction with
      | .incoming => [valueList.getD 1 ""]
      | .outgoing => []
    let startString :=
      match direction with
      | .outgoing => valueList.getD 1 "" ++ " " ++ valueList.getD 2 ""
      | .incoming => valueList.getD 2 "" ++ " " ++ valueList.getD 3 ""
    let endString :=
      match direction with
      | .outgoing => valueList.getD 3 "" ++ " " ++ valueList.getD 4 ""
      | .incoming => valueList.getD 4 "" ++ " " ++ valueList.getD 5 ""
    let connectionType :=
      match direction with
      | .outgoing => valueList.getD 6 ""
      | .incoming => valueList.getD 7 ""
    let times : Option PyDateTime × Option PyDateTime :=
      match strptimeDMYHMS startString, strptimeDMYHMS endString with
      | some a, some b => (some a, some b)
      | _, _ => (none, none)
    { identities := [extractedId]
      usernames := usernames
      connection := some
        { direction := direction
          peerId := extractedId
          peerDisplayName :=
            match direction with
            | .incoming => some (valueList.getD 1 "")
            | .outgoing => none
          connectionType := connectionType
          startTime := times.1
          endTime := times.2
          rawFields := valueList } }
  else ⟨[], [], none⟩

/-- One line of `processConnectionFile`: scan for IP addresses, split on
whitespace, and hand lines of more than 7 tokens to
`createTeamViewerConnectionArtefacts`. -/
def processConnectionLine (direction : Direction) (line : String) :
    List String × Option ConnectionArtefacts :=
  (identifyIpAddresses line,
    let valueList := pySplitWhitespace line
    if 7 < valueList.length then
      some (createTeamViewerConnectionArtefacts valueList direction)
    else none)

/-! ## Registry values (`getRegistryValueAsString`) -/

/-- A registry value as surfaced by the external hive reader: the value
`name`, the type tag (`valueType.toString()`), and the accessors used by the
coercer (`getAsString`, `getAsStringList`, `getAsNumber`, and the raw signed
bytes read one by one from `getAsRawData`). -/
structure RegistryValue where
  name : String
  valueType : String
  asString : String
  asStringList : List String
  asNumber : Int
  rawData : List Int
deriving DecidableEq, Repr

/-- Java `AbstractCollection.toString` body: elements joined by a comma and
a space. -/
def commaSpaceJoin : List String → String
  | [] => ""
  | [x] => x
  | x :: y :: xs => x ++ ", " ++ commaSpaceJoin (y :: xs)

/-- Java `List.toString()`: the elements bracketed, comma-space separated. -/
def javaListToString (l : List String) : String := "[" ++ commaSpaceJoin l ++ "]"

/-- One hexadecimal digit character, lowercase (`format(_, 'x')`). -/
def hexDigitChar (n : Nat) : Char :=
  if n < 10 then Char.ofNat ('0'.toNat + n) else Char.ofNat ('a'.toNat + n - 10)

/-- Python `format(b, '02x')` for `b < 256`: exactly two lowercase hex
digits. -/
def hexTwoData (n : Nat) : List Char := [hexDigitChar (n / 16), hexDigitChar (n % 16)]

/-- The source's two's-complement fixup: `if byte < 0: byte += 256`. -/
def unsignByte (b : Int) : Int := if b < 0 then b + 256 else b

/-- Pieces joined by single spaces (used to state the shape of the hex
dump). -/
def interSpaceData : List (List Char) → List Char
  | [] => []
  | [g] => g
  | g :: h :: t => g ++ ' ' :: interSpaceData (h :: t)

/-- The fallback hex dump: start from `"Raw: "`, append a space and two hex
digits per byte, then `strip()`. -/
def rawHexDumpData (bytes : List Int) : List Char :=
  stripData (bytes.foldl (fun acc b => acc ++ (' ' :: hexTwoData (unsignByte b).toNat)) "Raw: ".data)

/-- Model of `getRegistryValueAsString` (the RegistryValueCoercer). -/
def getRegistryValueAsString (v : RegistryValue) : String :=
  if v.valueType = "REG_EXPAND_SZ" || v.valueType = "REG_SZ" then v.asString
  else if v.valueType = "REG_MULTI_SZ" then javaListToString v.asStringList
  else if v.valueType = "REG_DWORD" || v.valueType = "REG_QWORD" then toString v.asNumber
  else ⟨rawHexDumpData v.rawData⟩

/-! ## Registry tree walk (`processRegistryTree`) -/

/-- A registry key as surfaced by the hive reader: its value list and its
subkey list, in enumeration order. -/
inductive RegKey where
  | mk (values : List RegistryValue) (subkeys : List RegKey)

/-- The walker's dictionary.  A Python `dict` is modelled as a list of
bindings with the newest binding first; `dlookup` returns the newest
binding for a name, which is all the interpreter observes. -/
abbrev Dict := List (String × String)

/-- Dictionary lookup: the most recent binding of `n`. -/
def dlookup (d : Dict) (n : String) : Option String :=
  (d.find? (fun p => p.1 == n)).map (fun p => p.2)

/-- The walker's first loop: `dict[value.getName()] = getRegistryValueAsString(value)`
for each value of the key, in order. -/
def insertValues (values : List RegistryValue) (d : Dict) : Dict :=
  values.foldl (fun acc v => (v.name, getRegistryValueAsString v) :: acc) d

mutual

/-- Model of `processRegistryTree`: record the key's own values, then walk
each subkey in enumeration order, threading the same dictionary (the
source's `update` call merges the recursive result back into it). -/
def processRegistryTree (k : RegKey) (d : Dict) : Dict :=
  match k with
  | .mk values subkeys => walkSubkeys subkeys (insertValues values d)

/-- The walker's second loop: recurse into each subkey in order. -/
def walkSubkeys (ks : List RegKey) (d : Dict) : Dict :=
  match ks with
  | [] => d
  | k :: rest => walkSubkeys rest (processRegistryTree k d)

end

/-- The name/value pairs of a key's own values, in order. -/
def ownPairs (values : List RegistryValue) : List (String × String) :=
  values.map (fun v => (v.name, getRegistryValueAsString v))

mutual

/-- The traversal order of the walker, as a flat list of bindings:
parent values first, then each subkey's subtree in enumeration order. -/
def collectPairs (k : RegKey) : List (String × String) :=
  match k with
  | .mk values subkeys => ownPairs values ++ collectPairsList subkeys

/-- Flattening of `collectPairs` over a subkey list. -/
def collectPairsList (ks : List RegKey) : List (String × String) :=
  match ks with
  | [] => []
  | k :: rest => collectPairs k ++ collectPairsList rest

end

/-- The last binding of `n` in a flat binding list (last-write-wins). -/
def lastDef : List (String × String) → String → Option String
  | [], _ => none
  | (k, v) :: rest, n =>
    match lastDef rest n with
    | some r => some r
    | none => if k = n then some v else none

/-- First-some choice on options. -/
def oor : Option String → Option String → Option String
  | some x, _ => some x
  | none, b => b

/-! ## `FT_Start_Directories` entries (`createRegistryArtifacts`) -/

structure FileTransferDirectoryRecord where
  peerId : String
  localPath : String
  remotePath : String
deriving DecidableEq, Repr

/-- The outcome of one surviving `FT_Start_Directories` entry: the directory
record plus the TeamViewer-ID record emitted when a peer id was recovered. -/
structure FTParse where
  record : FileTransferDirectoryRecord
  identity : Option String
deriving DecidableEq, Repr

/-- Result of processing one entry: a parse, or the uncaught `IndexError`
raised by `extractedPaths[0].split("?")[1]`. -/
inductive FTResult where
  | indexError
  | ok (r : FTParse)
deriving DecidableEq, Repr

/-- The body of the per-entry loop for `FT_Start_Directories` (source lines
419–452): recover the first digit run as the id, split on `|`; when a `|`
is present, the remote path is the second piece and the local path is the
second piece of the pre-`|` segment split on `?` — an out-of-range index
there raises `IndexError`.  A TeamViewer-ID record is emitted when the
recovered id is non-empty. -/
def parseFTEntry (e : String) : FTResult :=
  let extractedId := firstDigitRun e.data
  let identity := if extractedId = "" then none else some extractedId
  let extractedPaths := splitList '|' e.data
  if 1 < extractedPaths.length then
    match (splitList '?' (extractedPaths.getD 0 [])).get? 1 with
    | none => .indexError
    | some localPath =>
      .ok ⟨⟨extractedId, ⟨localPath⟩, ⟨extractedPaths.getD 1 []⟩⟩, identity⟩
  else
    .ok ⟨⟨extractedId, "", ""⟩, identity⟩

/-- The entry loop: entries of more than 5 characters are parsed in order;
an `IndexError` aborts the loop (records already created persist, the flag
records that the exception escaped). -/
def interpretFTEntries : List String → List FTParse × Bool
  | [] => ([], false)
  | e :: rest =>
    if 5 < e.length then
      match parseFTEntry e with
      | .indexError => ([], true)
      | .ok r =>
        let p := interpretFTEntries rest
        (r :: p.1, p.2)
    else interpretFTEntries rest

/-- The full `FT_Start_Directories` branch: remove `[` and `]`, split on
`,`, process each long-enough entry. -/
def interpretFTStartDirectories (keyValue : String) : List FTParse × Bool :=
  interpretFTEntries
    ((splitList ',' ((keyValue.data.filter (fun c => c ≠ '[')).filter (fun c => c ≠ ']'))).map String.mk)

/-! ## `LastMACUsed` (`createRegistryArtifacts`) -/

/-- The character class `[0-9A-Fa-f]`. -/
def isHexDigitPy (c : Char) : Bool :=
  c.isDigit || ('A' ≤ c && c ≤ 'F') || ('a' ≤ c && c ≤ 'f')

/-- Python `re.findall("[0-9A-Fa-f]{12}", s)`: scan left to right; at each
position, if the next 12 characters are hex digits, emit them and resume
after them, else advance one character.  The fuel is the input length,
enough because every step consumes at least one character. -/
def findallHex12 : Nat → List Char → List String
  | 0, _ => []
  | _ + 1, [] => []
  | fuel + 1, c :: cs =>
    let w := (c :: cs).take 12
    if w.length = 12 && w.all isHexDigitPy then
      String.mk w :: findallHex12 fuel ((c :: cs).drop 12)
    else
      findallHex12 fuel cs

/-- The `LastMACUsed` branch: one `TSK_TEAMVIEWER_MAC_ADDRESS` record per
`findall` match, carrying the matched 12 hex digits. -/
def interpretLastMAC (keyValue : String) : List String :=
  findallHex12 keyValue.data.length keyValue.data

/-! ## Session files (`processSessionFile`) -/

/-- The outcome of `processSessionFile`.  `valid` is false exactly when the
first line is not the literal `TVS` marker (the file is logged as invalid
and skipped). -/
structure SessionResult where
  valid : Bool
  identities : List String
  usernames : List String
  ips : List String
deriving DecidableEq, Repr

/-- The body of the `for _ in range(6)` loop of `processSessionFile`.
`lines.getD i ""` models the i-th raw `fp.readline()` result.  In Python,
`readline()` keeps the trailing newline of every line except an
unterminated final one (a mid-file empty line reads as `"\n"`) and
returns `""` at end of file — so the `line == ""` comparison is an
end-of-file check, not an empty-line check.  Every read line is scanned
for IP addresses; a two-token `ClientID` line would emit a TeamViewer-ID
record from its second token and a `ServerID` line of at least two tokens
both a TeamViewer-ID and a username record. -/
def sessionGo (lines : List String) : Nat → Nat → SessionResult → SessionResult
  | _, 0, acc => acc
  | i, fuel + 1, acc =>
    let line := lines.getD i ""
    let acc1 := { acc with ips := acc.ips ++ identifyIpAddresses line }
    if line = "" then acc1
    else
      let lineValues := pySplitWhitespace line
      if lineValues.length < 1 then sessionGo lines (i + 1) fuel acc1
      else
        let fieldName := lineValues.getD 0 ""
        if lineValues.length = 2 ∧ fieldName = "ClientID" then
          sessionGo lines (i + 1) fuel
            { acc1 with identities := acc1.identities ++ [lineValues.getD 1 ""] }
        else if 2 ≤ lineValues.length ∧ fieldName = "ServerID" then
          let extractedData := pyStrip (pyReplace line "ServerID" "")
          sessionGo lines (i + 1) fuel
            { acc1 with identities := acc1.identities ++ [extractedData],
                        usernames := acc1.usernames ++ [extractedData] }
        else sessionGo lines (i + 1) fuel acc1

/-- Model of `processSessionFile` over the successive raw `readline()`
results: validate that the first raw line equals `TVS` — which, since
`readline()` keeps the newline, only an unterminated final line can
satisfy — then run the 6-iteration loop. -/
def processSessionFile (lines : List String) : SessionResult :=
  if lines.getD 0 "" = "TVS" then sessionGo lines 1 6 ⟨true, [], [], []⟩
  else ⟨false, [], [], []⟩

/-- Python `fp.readline()` traces for a text file with the given content:
each call returns the next line up to and including its `"\n"`; a final
line without a terminating newline is returned as-is; at end of file every
further call returns `""` (modelled by `List.getD`'s `""` default).  The
fuel is the content length, enough because every produced line consumes at
least one character. -/
def fileReadlinesAux : Nat → List Char → List String
  | 0, _ => []
  | _ + 1, [] => []
  | fuel + 1, c :: cs =>
    let pre := (c :: cs).takeWhile (fun x => x ≠ '\n')
    match (c :: cs).drop pre.length with
    | '\n' :: rest => String.mk (pre ++ ['\n']) :: fileReadlinesAux fuel rest
    | _ => [String.mk pre]

/-- The successive `readline()` results for a file with content `content`. -/
def fileReadlines (content : List Char) : List String :=
  fileReadlinesAux content.length content

/-! ## Declarative shape of an IPv4-looking string (spec 4.4) -/

/-- Modelled from the spec (4.4): a string of four dot-separated groups of
one to three decimal digits. -/
def specDottedQuad (s : String) : Bool :=
  let parts := splitList '.' s.data
  parts.length = 4 && parts.all (fun g => 1 ≤ g.length && g.length ≤ 3 && g.all Char.isDigit)

/-- Modelled from the spec's wording in C8: the substring after the first
occurrence of `c` (everything past it, further occurrences included). -/
def substringAfterFirst (c : Char) (s : String) : String :=
  ⟨(s.data.dropWhile (fun x => x ≠ c)).drop 1⟩

/-! ## Connection-record claims (C1, C2, C10) -/

/-- C1: on a whitespace-token list of at least 8 tokens whose first token is
all decimal digits, the builder with direction OUTGOING emits a
ConnectionRecord with `peerId = tokens[0]`, `connectionType = tokens[6]`,
and the start/end timestamps parsed from `tokens[1] + " " + tokens[2]` and
`tokens[3] + " " + tokens[4]`; the example token list yields peer id
`123456789`, connection type `VPN`, and timestamps 2021-02-01T10:00:00 and
2021-02-01T10:05:00. -/
theorem outgoing_connection_layout :
    (∀ tokens : List String, 8 ≤ tokens.length → pyIsdigit (tokens.getD 0 "") = true →
      ∃ r : ConnectionRecord,
        (createTeamViewerConnectionArtefacts tokens .outgoing).connection = some r
        ∧ r.peerId = tokens.getD 0 ""
        ∧ r.connectionType = tokens.getD 6 ""
        ∧ r.direction = .outgoing
        ∧ (∀ a b : PyDateTime,
            strptimeDMYHMS (tokens.getD 1 "" ++ " " ++ tokens.getD 2 "") = some a →
            strptimeDMYHMS (tokens.getD 3 "" ++ " " ++ tokens.getD 4 "") = some b →
            r.startTime = some a ∧ r.endTime = some b))
    ∧ (createTeamViewerConnectionArtefacts
        ["123456789", "01-02-2021", "10:00:00", "01-02-2021", "10:05:00",
         "winuser", "VPN", "sess1"] .outgoing).connection =
      some ⟨.outgoing, "123456789", none, "VPN",
            some ⟨2021, 2, 1, 10, 0, 0⟩, some ⟨2021, 2, 1, 10, 5, 0⟩,
            ["123456789", "01-02-2021", "10:00:00", "01-02-2021", "10:05:00",
             "winuser", "VPN", "sess1"]⟩ := by
  constructor
  · intro tokens _ hdig
    simp only [createTeamViewerConnectionArtefacts, hdig, if_true]
    refine ⟨_, rfl, rfl, rfl, rfl, ?_⟩
    intro a b ha hb
    rw [ha, hb]
    exact ⟨rfl, rfl⟩
  · decide

/-- Witness for C1 at the spec's example token list. -/
theorem outgoing_connection_layout_witness :
    ∃ r : ConnectionRecord,
      (createTeamViewerConnectionArtefacts
        ["123456789", "01-02-2021", "10:00:00", "01-02-2021", "10:05:00",
         "winuser", "VPN", "sess1"] .outgoing).connection = some r
      ∧ r.peerId = "123456789"
      ∧ r.connectionType = "VPN"
      ∧ r.direction = .outgoing
      ∧ (∀ a b : PyDateTime,
          strptimeDMYHMS "01-02-2021 10:00:00" = some a →
          strptimeDMYHMS "01-02-2021 10:05:00" = some b →
          r.startTime = some a ∧ r.endTime = some b) :=
  outgoing_connection_layout.1
    ["123456789", "01-02-2021", "10:00:00", "01-02-2021", "10:05:00",
     "winuser", "VPN", "sess1"] (by decide) (by decide)

/-- C2: on any token list accepted by the builder (at least 8 tokens, first
token all digits, for either direction) in which the start string or the
end string fails to parse as day-month-year hour:minute:second, the builder
still emits a ConnectionRecord with the peer id set and both timestamps
absent — never one of them alone, and never a zero stand-in. -/
theorem connection_unparsable_dates :
    (∀ tokens : List String, 8 ≤ tokens.length → pyIsdigit (tokens.getD 0 "") = true →
      (strptimeDMYHMS (tokens.getD 1 "" ++ " " ++ tokens.getD 2 "") = none ∨
       strptimeDMYHMS (tokens.getD 3 "" ++ " " ++ tokens.getD 4 "") = none) →
      (createTeamViewerConnectionArtefacts tokens .outgoing).connection =
        some ⟨.outgoing, tokens.getD 0 "", none, tokens.getD 6 "", none, none, tokens⟩)
    ∧ (∀ tokens : List String, 8 ≤ tokens.length → pyIsdigit (tokens.getD 0 "") = true →
      (strptimeDMYHMS (tokens.getD 2 "" ++ " " ++ tokens.getD 3 "") = none ∨
       strptimeDMYHMS (tokens.getD 4 "" ++ " " ++ tokens.getD 5 "") = none) →
      (createTeamViewerConnectionArtefacts tokens .incoming).connection =
        some ⟨.incoming, tokens.getD 0 "", some (tokens.getD 1 ""), tokens.getD 7 "",
              none, none, tokens⟩) := by
  constructor
  · intro tokens _ hdig hbad
    simp only [createTeamViewerConnectionArtefacts, hdig, if_true]
    rcases hbad with h | h <;>
      rcases hst : strptimeDMYHMS (tokens.getD 1 "" ++ " " ++ tokens.getD 2 "") with _ | a <;>
      rcases hen : strptimeDMYHMS (tokens.getD 3 "" ++ " " ++ tokens.getD 4 "") with _ | b <;>
      simp_all
  · intro tokens _ hdig hbad
    simp only [createTeamViewerConnectionArtefacts, hdig, if_true]
    rcases hbad with h | h <;>
      rcases hst : strptimeDMYHMS (tokens.getD 2 "" ++ " " ++ tokens.getD 3 "") with _ | a <;>
      rcases hen : strptimeDMYHMS (tokens.getD 4 "" ++ " " ++ tokens.getD 5 "") with _ | b <;>
      simp_all

/-- Witness for C2: an outgoing line whose dates do not parse still yields
a record with the peer id set and both timestamps absent. -/
theorem connection_unparsable_dates_witness :
    (createTeamViewerConnectionArtefacts
      ["123456789", "baddate", "10:00:00", "01-02-2021", "10:05:00",
       "winuser", "VPN", "sess1"] .outgoing).connection =
    some ⟨.outgoing, "123456789", none, "VPN", none, none,
          ["123456789", "baddate", "10:00:00", "01-02-2021", "10:05:00",
           "winuser", "VPN", "sess1"]⟩ :=
  connection_unparsable_dates.1
    ["123456789", "baddate", "10:00:00", "01-02-2021", "10:05:00",
     "winuser", "VPN", "sess1"] (by decide) (by decide) (Or.inl (by decide))

/-- C10: for a connection file whose path marks it as incoming, a line of
exactly 8 whitespace tokens whose first token is all decimal digits is
still accepted: a ConnectionRecord is emitted whose connectionType is the
8th (last) token, even though the documented incoming layout has 9 fields. -/
theorem incoming_eight_token_line :
    ∀ (path : String) (tokens : List String),
      pyIn "incoming" path = true → tokens.length = 8 →
      pyIsdigit (tokens.getD 0 "") = true →
      ∃ r : ConnectionRecord,
        (createTeamViewerConnectionArtefacts tokens (directionFromPath path)).connection = some r
        ∧ r.connectionType = tokens.getD 7 ""
        ∧ tokens.getLast? = some r.connectionType := by
  intro path tokens hpath hlen hdig
  have hdir : directionFromPath path = .incoming := by
    simp [directionFromPath, hpath]
  rw [hdir]
  simp only [createTeamViewerConnectionArtefacts, hdig, if_true]
  refine ⟨_, rfl, rfl, ?_⟩
  have h7 : tokens.get? 7 = some (tokens.getD 7 "") := by
    rcases h : tokens.get? 7 with _ | x
    · rw [List.get?_eq_none] at h
      omega
    · rw [List.getD_eq_get?, h]
      rfl
  rw [List.getLast?_eq_get?, hlen]
  exact h7

/-! ## Registry-coercer claim (C4) -/

theorem dropWhile_eq_self_of_head (p : Char → Bool) (l : List Char)
    (h : ∀ x, l.head? = some x → p x = false) : l.dropWhile p = l := by
  cases l with
  | nil => rfl
  | cons x xs =>
    rw [List.dropWhile_cons, h x rfl]
    simp

theorem stripData_eq_self (l : List Char)
    (h1 : ∀ x, l.head? = some x → pyIsSpace x = false)
    (h2 : ∀ x, l.getLast? = some x → pyIsSpace x = false) : stripData l = l := by
  unfold stripData
  rw [dropWhile_eq_self_of_head pyIsSpace l h1]
  rw [dropWhile_eq_self_of_head pyIsSpace l.reverse
    (fun x hx => h2 x (by rwa [List.head?_reverse] at hx))]
  exact List.reverse_reverse l

theorem hexfold_eq_join (bytes : List Int) :
    ∀ acc : List Char,
      bytes.foldl (fun acc b => acc ++ (' ' :: hexTwoData (unsignByte b).toNat)) acc =
      acc ++ (bytes.map (fun b => ' ' :: hexTwoData (unsignByte b).toNat)).flatten := by
  induction bytes with
  | nil => intro acc; simp
  | cons b bs ih =>
    intro acc
    simp only [List.foldl_cons, List.map_cons, List.flatten_cons, ih, List.append_assoc]

theorem join_space_cons (f : Int → List Char) :
    ∀ bs : List Int, bs ≠ [] →
      ((bs.map (fun b => ' ' :: f b)).flatten : List Char) = ' ' :: interSpaceData (bs.map f) := by
  intro bs
  induction bs with
  | nil => intro h; exact absurd rfl h
  | cons b rest ih =>
    intro _
    cases rest with
    | nil => simp [interSpaceData]
    | cons c t =>
      rw [List.map_cons, List.flatten_cons, ih (by simp)]
      simp [interSpaceData]

theorem interSpaceData_ne_nil :
    ∀ gs : List (List Char), (∀ g ∈ gs, g ≠ []) → gs ≠ [] → interSpaceData gs ≠ [] := by
  intro gs
  induction gs with
  | nil => intro _ h; exact absurd rfl h
  | cons g rest ih =>
    intro hne _
    cases rest with
    | nil => exact hne g (by simp)
    | cons c t =>
      simp only [interSpaceData]
      simp

theorem interSpaceData_getLast :
    ∀ gs : List (List Char), (∀ g ∈ gs, g ≠ []) → gs ≠ [] →
      ∃ g, g ∈ gs ∧ (interSpaceData gs).getLast? = g.getLast? := by
  intro gs
  induction gs with
  | nil => intro _ h; exact absurd rfl h
  | cons g rest ih =>
    intro hne _
    cases rest with
    | nil => exact ⟨g, by simp, rfl⟩
    | cons c t =>
      rcases ih (fun x hx => hne x (by simp [hx])) (by simp) with ⟨g', hg', hlast⟩
      refine ⟨g', by simp [hg'], ?_⟩
      have hn : interSpaceData (c :: t) ≠ [] :=
        interSpaceData_ne_nil (c :: t) (fun x hx => hne x (by simp [hx])) (by simp)
      rcases hx : interSpaceData (c :: t) with _ | ⟨y, ys⟩
      · exact absurd hx hn
      · show (g ++ ' ' :: interSpaceData (c :: t)).getLast? = g'.getLast?
        rw [hx] at hlast ⊢
        rw [List.getLast?_append_of_ne_nil g (by simp), List.getLast?_cons_cons]
        exact hlast

theorem hexDigitChar_facts :
    ∀ k : Nat, k < 16 →
      hexDigitChar k ∈ "0123456789abcdef".data ∧ pyIsSpace (hexDigitChar k) = false := by
  decide

/-- C4: on a registry value whose type is none of the recognized string,
multi-string, or integer types, the coercer never raises and returns the
string `Raw:` followed by exactly one two-character lowercase hexadecimal
group per raw byte, single-space separated, each byte rendered as its
unsigned 0–255 value (negative two's-complement bytes mapped back by adding
256), with surrounding whitespace stripped. -/
theorem coerce_unknown_type_hex (v : RegistryValue)
    (h1 : v.valueType ≠ "REG_EXPAND_SZ") (h2 : v.valueType ≠ "REG_SZ")
    (h3 : v.valueType ≠ "REG_MULTI_SZ") (h4 : v.valueType ≠ "REG_DWORD")
    (h5 : v.valueType ≠ "REG_QWORD")
    (hbytes : ∀ b ∈ v.rawData, -128 ≤ b ∧ b ≤ 127) :
    ∃ groups : List (List Char),
      groups = v.rawData.map (fun b => hexTwoData (unsignByte b).toNat)
      ∧ groups.length = v.rawData.length
      ∧ (∀ g ∈ groups, g.length = 2 ∧ ∀ c ∈ g, c ∈ "0123456789abcdef".data)
      ∧ getRegistryValueAsString v =
          ⟨"Raw:".data ++ (if groups.isEmpty then [] else ' ' :: ' ' :: interSpaceData groups)⟩ := by
  have hsize : ∀ b ∈ v.rawData, (unsignByte b).toNat < 256 := by
    intro b hb
    rcases hbytes b hb with ⟨hlo, hhi⟩
    unfold unsignByte
    split <;> omega
  refine ⟨v.rawData.map (fun b => hexTwoData (unsignByte b).toNat), rfl, by simp, ?_, ?_⟩
  · intro g hg
    rcases List.mem_map.mp hg with ⟨b, hb, rfl⟩
    refine ⟨rfl, ?_⟩
    intro c hc
    have hlt := hsize b hb
    have h16a : (unsignByte b).toNat / 16 < 16 := by omega
    have h16b : (unsignByte b).toNat % 16 < 16 := by omega
    simp only [hexTwoData, List.mem_cons, List.not_mem_nil, or_false] at hc
    rcases hc with rfl | rfl
    · exact (hexDigitChar_facts _ h16a).1
    · exact (hexDigitChar_facts _ h16b).1
  · have hraw : getRegistryValueAsString v = ⟨rawHexDumpData v.rawData⟩ := by
      simp [getRegistryValueAsString, h1, h2, h3, h4, h5]
    rw [hraw]
    unfold rawHexDumpData
    rw [hexfold_eq_join]
    rcases hcase : v.rawData with _ | ⟨b0, bs⟩
    · decide
    · rw [join_space_cons _ _ (by simp)]
      have hgroups : ∀ g ∈ (b0 :: bs).map (fun b => hexTwoData (unsignByte b).toNat), g ≠ [] := by
        intro g hg
        rcases List.mem_map.mp hg with ⟨b, _, rfl⟩
        simp [hexTwoData]
      have hshape : ("Raw: ".data ++ ' ' :: interSpaceData
          ((b0 :: bs).map (fun b => hexTwoData (unsignByte b).toNat)) : List Char) =
          "Raw:".data ++ ' ' :: ' ' :: interSpaceData
            ((b0 :: bs).map (fun b => hexTwoData (unsignByte b).toNat)) := rfl
      rw [hshape]
      have hlastok : ∀ x, ("Raw:".data ++ ' ' :: ' ' :: interSpaceData
          ((b0 :: bs).map (fun b => hexTwoData (unsignByte b).toNat)) : List Char).getLast? = some x →
          pyIsSpace x = false := by
        intro x hx
        rcases interSpaceData_getLast _ hgroups (by simp) with ⟨g, hg, hlast⟩
        rcases List.mem_map.mp hg with ⟨b, hb, rfl⟩
        have hn : interSpaceData ((b0 :: bs).map (fun b => hexTwoData (unsignByte b).toNat)) ≠ [] :=
          interSpaceData_ne_nil _ hgroups (by simp)
        rcases hi : interSpaceData ((b0 :: bs).map (fun b => hexTwoData (unsignByte b).toNat))
          with _ | ⟨y, ys⟩
        · exact absurd hi hn
        · rw [hi] at hlast hx
          rw [List.getLast?_append_of_ne_nil _ (by simp), List.getLast?_cons_cons,
            List.getLast?_cons_cons, hlast] at hx
          have hb256 : (unsignByte b).toNat % 16 < 16 := by omega
          have hg2 : (hexTwoData (unsignByte b).toNat).getLast? =
              some (hexDigitChar ((unsignByte b).toNat % 16)) := rfl
          rw [hg2] at hx
          cases hx
          exact (hexDigitChar_facts _ hb256).2
      have hheadok : ∀ x, ("Raw:".data ++ ' ' :: ' ' :: interSpaceData
          ((b0 :: bs).map (fun b => hexTwoData (unsignByte b).toNat)) : List Char).head? = some x →
          pyIsSpace x = false := by
        intro x hx
        have : ("Raw:".data ++ ' ' :: ' ' :: interSpaceData
            ((b0 :: bs).map (fun b => hexTwoData (unsignByte b).toNat)) : List Char).head? =
            some 'R' := rfl
        rw [this] at hx
        cases hx
        decide
      rw [stripData_eq_self _ hheadok hlastok]
      simp

/-- Witness for C4: a binary-typed value with bytes `-1` and `10` coerces to
`Raw:  ff 0a`. -/
theorem coerce_unknown_type_hex_witness :
    ∃ groups : List (List Char),
      groups = ([-1, 10] : List Int).map (fun b => hexTwoData (unsignByte b).toNat)
      ∧ groups.length = ([-1, 10] : List Int).length
      ∧ (∀ g ∈ groups, g.length = 2 ∧ ∀ c ∈ g, c ∈ "0123456789abcdef".data)
      ∧ getRegistryValueAsString ⟨"SecurityPasswordAES", "REG_BINARY", "", [], 0, [-1, 10]⟩ =
          ⟨"Raw:".data ++ (if groups.isEmpty then [] else ' ' :: ' ' :: interSpaceData groups)⟩ :=
  coerce_unknown_type_hex ⟨"SecurityPasswordAES", "REG_BINARY", "", [], 0, [-1, 10]⟩
    (by decide) (by decide) (by decide) (by decide) (by decide) (by decide)

/-! ## Registry-walk claim (C5) -/

theorem oor_none (x : Option String) : oor x none = x := by cases x <;> rfl

theorem oor_assoc (a b c : Option String) : oor (oor a b) c = oor a (oor b c) := by
  cases a <;> rfl

theorem lastDef_cons (k v : String) (rest : List (String × String)) (n : String) :
    lastDef ((k, v) :: rest) n = oor (lastDef rest n) (if k = n then some v else none) := by
  cases h : lastDef rest n <;> simp [lastDef, h, oor]

theorem lastDef_append (a b : List (String × String)) (n : String) :
    lastDef (a ++ b) n = oor (lastDef b n) (lastDef a n) := by
  induction a with
  | nil => exact (oor_none _).symm
  | cons p a' ih =>
    rcases p with ⟨k, v⟩
    rw [List.cons_append, lastDef_cons, ih, lastDef_cons, oor_assoc]

theorem dlookup_cons (k v : String) (d : Dict) (n : String) :
    dlookup ((k, v) :: d) n = if k = n then some v else dlookup d n := by
  by_cases hk : k = n <;> simp [dlookup, List.find?_cons, hk]

theorem dlookup_insertValues (values : List RegistryValue) :
    ∀ (d : Dict) (n : String),
      dlookup (insertValues values d) n = oor (lastDef (ownPairs values) n) (dlookup d n) := by
  induction values with
  | nil => intro d n; rfl
  | cons v vs ih =>
    intro d n
    show dlookup (insertValues vs ((v.name, getRegistryValueAsString v) :: d)) n = _
    rw [ih, dlookup_cons,
      show ownPairs (v :: vs) = (v.name, getRegistryValueAsString v) :: ownPairs vs from rfl,
      lastDef_cons, oor_assoc]
    congr 1
    by_cases h : v.name = n <;> simp [h, oor]

theorem dlookup_walkSubkeys :
    ∀ ks : List RegKey,
      (∀ k ∈ ks, ∀ (d : Dict) (n : String),
        dlookup (processRegistryTree k d) n = oor (lastDef (collectPairs k) n) (dlookup d n)) →
      ∀ (d : Dict) (n : String),
        dlookup (walkSubkeys ks d) n = oor (lastDef (collectPairsList ks) n) (dlookup d n) := by
  intro ks
  induction ks with
  | nil =>
    intro _ d n
    simp only [walkSubkeys, collectPairsList]
    rfl
  | cons k rest ih =>
    intro hk d n
    simp only [walkSubkeys, collectPairsList]
    rw [ih (fun k' hk' => hk k' (by simp [hk'])), hk k (by simp),
      lastDef_append, oor_assoc]

theorem dlookup_processRegistryTree_aux :
    ∀ (N : Nat) (k : RegKey), sizeOf k ≤ N → ∀ (d : Dict) (n : String),
      dlookup (processRegistryTree k d) n = oor (lastDef (collectPairs k) n) (dlookup d n) := by
  intro N
  induction N with
  | zero =>
    intro k hk
    exfalso
    cases k with
    | mk values subkeys =>
      have : 1 ≤ sizeOf (RegKey.mk values subkeys) := by
        simp
        omega
      omega
  | succ N ih =>
    intro k hk d n
    cases k with
    | mk values subkeys =>
      have hsub : ∀ k' ∈ subkeys, sizeOf k' ≤ N := by
        intro k' hk'
        have h1 := List.sizeOf_lt_of_mem hk'
        have h2 : sizeOf (RegKey.mk values subkeys) = 1 + sizeOf values + sizeOf subkeys := by
          simp
        omega
      simp only [processRegistryTree, collectPairs]
      rw [dlookup_walkSubkeys subkeys (fun k' hk' _ _ => ih k' (hsub k' hk') _ _),
        dlookup_insertValues, lastDef_append, oor_assoc]

/-- C5: the registry walker on a key with no subkeys returns exactly the
key's own coerced name-to-value pairs; in general the resulting map is, for
every name, the last binding of the traversal that records parent values
first and then subkeys in enumeration order — so a descendant subkey that
redefines a name wins, as in the concrete two-level tree where the subkey's
`222` overrides the parent's `111`. -/
theorem registry_walk_last_write_wins :
    (∀ (values : List RegistryValue) (n : String),
      dlookup (processRegistryTree (.mk values []) []) n = lastDef (ownPairs values) n)
    ∧ (∀ (k : RegKey) (n : String),
      dlookup (processRegistryTree k []) n = lastDef (collectPairs k) n)
    ∧ dlookup (processRegistryTree
        (.mk [⟨"ClientID", "REG_SZ", "111", [], 0, []⟩]
          [.mk [⟨"ClientID", "REG_SZ", "222", [], 0, []⟩] []]) []) "ClientID" = some "222" := by
  have hmain : ∀ (k : RegKey) (n : String),
      dlookup (processRegistryTree k []) n = lastDef (collectPairs k) n := by
    intro k n
    rw [dlookup_processRegistryTree_aux (sizeOf k) k le_rfl []]
    exact oor_none _
  refine ⟨?_, hmain, by decide⟩
  intro values n
  rw [hmain]
  simp only [collectPairs, collectPairsList, List.append_nil]

/-! ## Splitting lemmas -/

theorem splitList_ne_nil (c : Char) : ∀ l : List Char, splitList c l ≠ [] := by
  intro l
  induction l with
  | nil => simp [splitList]
  | cons x xs ih =>
    simp only [splitList]
    split
    · simp
    · rcases h : splitList c xs with _ | ⟨h', t⟩
      · simp
      · simp [h]

theorem splitList_of_not_mem (c : Char) : ∀ l : List Char, c ∉ l → splitList c l = [l] := by
  intro l
  induction l with
  | nil => intro _; rfl
  | cons x xs ih =>
    intro hmem
    have hx : ¬(x = c) := fun h => hmem (by simp [h])
    simp only [splitList, if_neg hx, ih (fun h => hmem (by simp [h]))]

theorem splitList_append_sep (c : Char) :
    ∀ p q : List Char, c ∉ p → splitList c (p ++ c :: q) = p :: splitList c q := by
  intro p
  induction p with
  | nil =>
    intro q _
    simp [splitList]
  | cons x p' ih =>
    intro q hmem
    have hx : ¬(x = c) := fun h => hmem (by simp [h])
    have hih := ih q (fun h => hmem (by simp [h]))
    show splitList c (x :: (p' ++ c :: q)) = (x :: p') :: splitList c q
    simp only [splitList, if_neg hx]
    rw [hih]

theorem splitList_head (c : Char) :
    ∀ l : List Char, ∃ t, splitList c l = (l.takeWhile (fun x => x ≠ c)) :: t := by
  intro l
  induction l with
  | nil => exact ⟨[], rfl⟩
  | cons x xs ih =>
    by_cases hx : x = c
    · subst hx
      refine ⟨splitList x xs, ?_⟩
      simp [splitList, List.takeWhile_cons]
    · rcases ih with ⟨t, ht⟩
      refine ⟨t, ?_⟩
      simp [splitList, ht, List.takeWhile_cons, hx]

/-! ## `FT_Start_Directories` claims (C3, C8) -/

/-- C3 counterexample: the entry `abcdef|ghi` is longer than 5 characters
and has no `?`, yet its interpretation raises the uncaught `IndexError` of
`extractedPaths[0].split("?")[1]` instead of emitting a record with empty
fields. -/
theorem ft_entry_missing_qmark_raises :
    ("abcdef|ghi" : String).length > 5
    ∧ pyIn "?" "abcdef|ghi" = false
    ∧ parseFTEntry "abcdef|ghi" = .indexError
    ∧ (interpretFTStartDirectories "abcdef|ghi").2 = true := by decide

/-- C3 (amended): an over-5-character entry with no `|` never raises and
still yields a FileTransferDirectoryRecord with empty local and remote
paths (and a peer id when the entry contains digits); but an
over-5-character entry with a `|` whose pre-`|` segment has no `?` raises
an uncaught `IndexError` and yields nothing. -/
theorem ft_entry_error_policy :
    (∀ e : String, 5 < e.length → '|' ∉ e.data →
      parseFTEntry e = .ok ⟨⟨firstDigitRun e.data, "", ""⟩,
        if firstDigitRun e.data = "" then none else some (firstDigitRun e.data)⟩)
    ∧ (∀ p q : List Char, 5 < (p ++ '|' :: q).length → '|' ∉ p → '?' ∉ p →
      parseFTEntry ⟨p ++ '|' :: q⟩ = .indexError) := by
  constructor
  · intro e _ hmem
    simp only [parseFTEntry, splitList_of_not_mem '|' e.data hmem]
    rfl
  · intro p q _ hp hq
    have hq2 : splitList '?' p = [p] := splitList_of_not_mem '?' p hq
    have hsplit : splitList '|' (p ++ '|' :: q) = p :: splitList '|' q :=
      splitList_append_sep '|' p q hp
    have hne := splitList_ne_nil '|' q
    simp only [parseFTEntry]
    rw [hsplit]
    have hlen1 : 1 < (p :: splitList '|' q).length := by
      rcases h : splitList '|' q with _ | ⟨_, _⟩
      · exact absurd h hne
      · simp [h]
    rw [if_pos hlen1]
    simp [hq2]

/-- Witness for C3's amended claim at the entry `abcdefg`. -/
theorem ft_entry_error_policy_witness :
    parseFTEntry "abcdefg" = .ok ⟨⟨firstDigitRun "abcdefg".data, "", ""⟩,
      if firstDigitRun "abcdefg".data = "" then none
      else some (firstDigitRun "abcdefg".data)⟩ :=
  ft_entry_error_policy.1 "abcdefg" (by decide) (by decide)

/-- C8 counterexample: in the entry `12?a?b|r` the pre-`|` segment is
`12?a?b`, whose substring after the first `?` is `a?b`; the code's
`split("?")[1]` instead takes the piece between the first and second `?`,
so the emitted localPath is `a`, not `a?b`. -/
theorem ft_local_path_counterexample :
    ("12?a?b|r" : String).length > 5
    ∧ parseFTEntry "12?a?b|r" = .ok ⟨⟨"12", "a", "r"⟩, some "12"⟩
    ∧ substringAfterFirst '?' "12?a?b" = "a?b"
    ∧ ("a" : String) ≠ "a?b" := by decide

/-- C8 (amended): after stripping `[`/`]` and splitting on `,`, each entry
longer than 5 characters yields exactly one FileTransferDirectoryRecord
(provided no entry contains a `|` without a `?` before it, which instead
raises an uncaught IndexError); on an entry whose pre-`|` segment contains
a `?`, the peerId is the first digit run anywhere in the entry (empty when
there is none, with an IdentityRecord emitted exactly when it is
non-empty), the remotePath is the piece between the first and second `|`,
and the localPath is the piece of the pre-`|` segment between its first
and second `?`; the spec's example entry parses as stated. -/
theorem ft_start_directories_parse :
    (∀ p q a b : List Char, 5 < (p ++ '|' :: q).length → '|' ∉ p →
      p = a ++ '?' :: b → '?' ∉ a →
      parseFTEntry ⟨p ++ '|' :: q⟩ =
        .ok ⟨⟨firstDigitRun (p ++ '|' :: q),
              ⟨b.takeWhile (fun x => x ≠ '?')⟩,
              ⟨q.takeWhile (fun x => x ≠ '|')⟩⟩,
             if firstDigitRun (p ++ '|' :: q) = "" then none
             else some (firstDigitRun (p ++ '|' :: q))⟩)
    ∧ (∀ es : List String, (interpretFTEntries es).2 = false →
        (interpretFTEntries es).1.length = (es.filter (fun e => 5 < e.length)).length)
    ∧ parseFTEntry "958223731?C:\\Users\\Controller\\Desktop|C:/Users/Slave/Desktop" =
        .ok ⟨⟨"958223731", "C:\\Users\\Controller\\Desktop", "C:/Users/Slave/Desktop"⟩,
             some "958223731"⟩ := by
  refine ⟨?_, ?_, by decide⟩
  · intro p q a b _ hp hpa haq
    subst hpa
    have hsplit : splitList '|' ((a ++ '?' :: b) ++ '|' :: q) =
        (a ++ '?' :: b) :: splitList '|' q := splitList_append_sep '|' _ q hp
    have hne := splitList_ne_nil '|' q
    have hq : splitList '?' (a ++ '?' :: b) = a :: splitList '?' b :=
      splitList_append_sep '?' a b haq
    rcases splitList_head '?' b with ⟨t, ht⟩
    rcases splitList_head '|' q with ⟨t2, ht2⟩
    simp only [parseFTEntry]
    rw [hsplit]
    have hlen1 : 1 < ((a ++ '?' :: b) :: splitList '|' q).length := by
      rcases h : splitList '|' q with _ | ⟨_, _⟩
      · exact absurd h hne
      · simp [h]
    rw [if_pos hlen1]
    simp only [List.getD_cons_zero, List.getD_cons_succ]
    rw [hq, ht, ht2]
    rfl
  · intro es
    induction es with
    | nil => intro _; rfl
    | cons e rest ih =>
      intro hok
      simp only [interpretFTEntries] at hok ⊢
      by_cases hlen : 5 < e.length
      · rw [if_pos hlen] at hok ⊢
        rcases hp : parseFTEntry e with _ | r
        · rw [hp] at hok
          simp at hok
        · rw [hp] at hok
          have hok2 : (interpretFTEntries rest).2 = false := hok
          show (r :: (interpretFTEntries rest).1).length =
            (List.filter (fun e => decide (5 < e.length)) (e :: rest)).length
          have hd : decide (5 < e.length) = true := by simpa using hlen
          simp [List.filter_cons, hd, ih hok2]
      · rw [if_neg hlen] at hok ⊢
        have hd : decide (5 < e.length) = false := by simpa using hlen
        simp [List.filter_cons, hd, ih hok]

/-- Witness for C8's amended claim at the entry `12?ab|cd`. -/
theorem ft_start_directories_parse_witness :
    parseFTEntry ⟨("12".data ++ '?' :: "ab".data) ++ '|' :: "cd".data⟩ =
      .ok ⟨⟨firstDigitRun (("12".data ++ '?' :: "ab".data) ++ '|' :: "cd".data),
            ⟨"ab".data.takeWhile (fun x => x ≠ '?')⟩,
            ⟨"cd".data.takeWhile (fun x => x ≠ '|')⟩⟩,
           if firstDigitRun (("12".data ++ '?' :: "ab".data) ++ '|' :: "cd".data) = "" then none
           else some (firstDigitRun (("12".data ++ '?' :: "ab".data) ++ '|' :: "cd".data))⟩ :=
  ft_start_directories_parse.1 ("12".data ++ '?' :: "ab".data) "cd".data "12".data "ab".data
    (by decide) (by decide) rfl (by decide)

/-! ## `LastMACUsed` claim (C6) -/

theorem findallHex12_nil : ∀ f, findallHex12 f [] = [] := by
  intro f
  cases f <;> rfl

theorem findallHex12_fuel :
    ∀ f1 : Nat, ∀ (l : List Char) (f2 : Nat), l.length ≤ f1 → l.length ≤ f2 →
      findallHex12 f1 l = findallHex12 f2 l := by
  intro f1
  induction f1 with
  | zero =>
    intro l f2 h1 _
    have hl : l = [] := List.eq_nil_of_length_eq_zero (by omega)
    subst hl
    rw [findallHex12_nil, findallHex12_nil]
  | succ f ih =>
    intro l f2 h1 h2
    cases l with
    | nil => rw [findallHex12_nil, findallHex12_nil]
    | cons c cs =>
      cases f2 with
      | zero => simp at h2
      | succ f2' =>
        simp only [findallHex12]
        split
        next hc =>
          rw [Bool.and_eq_true, decide_eq_true_eq] at hc
          have h12 : 12 ≤ (c :: cs).length := by
            have := hc.1
            rw [List.length_take] at this
            omega
          congr 1
          apply ih
          · rw [List.length_drop]
            simp only [List.length_cons] at h1 ⊢
            omega
          · rw [List.length_drop]
            simp only [List.length_cons] at h2 ⊢
            omega
        next hc =>
          apply ih
          · simp only [List.length_cons] at h1
            omega
          · simp only [List.length_cons] at h2
            omega

theorem findallHex12_short :
    ∀ (f : Nat) (l : List Char), (∀ x ∈ l, isHexDigitPy x = true) → l.length < 12 →
      findallHex12 f l = [] := by
  intro f
  induction f with
  | zero => intro l _ _; rfl
  | succ f ih =>
    intro l hhex hlen
    cases l with
    | nil => rfl
    | cons c cs =>
      simp only [findallHex12]
      have hw : ((c :: cs).take 12).length ≠ 12 := by
        rw [List.length_take]
        simp only [List.length_cons] at hlen ⊢
        omega
      have hcond : (decide (((c :: cs).take 12).length = 12)
          && ((c :: cs).take 12).all isHexDigitPy) = false := by
        have hd : decide (((c :: cs).take 12).length = 12) = false := by simpa using hw
        rw [hd, Bool.false_and]
      rw [if_neg (by simp only [hcond]; decide)]
      apply ih
      · intro x hx
        exact hhex x (by simp [hx])
      · simp only [List.length_cons] at hlen
        omega

theorem findallHex12_exact :
    ∀ (f : Nat) (l : List Char), 1 ≤ f → (∀ x ∈ l, isHexDigitPy x = true) →
      l.length = 12 → findallHex12 f l = [⟨l⟩] := by
  intro f l hf hhex hlen
  cases f with
  | zero => omega
  | succ f =>
    cases l with
    | nil => simp at hlen
    | cons c cs =>
      simp only [findallHex12]
      have htake : (c :: cs).take 12 = c :: cs := List.take_of_length_le (by omega)
      have hcond : (decide (((c :: cs).take 12).length = 12)
          && ((c :: cs).take 12).all isHexDigitPy) = true := by
        rw [htake]
        simp only [Bool.and_eq_true, decide_eq_true_eq]
        exact ⟨hlen, List.all_eq_true.mpr hhex⟩
      rw [if_pos hcond, htake]
      have hdrop : (c :: cs).drop 12 = [] := List.drop_eq_nil_of_le (by omega)
      rw [hdrop, findallHex12_nil]

theorem findallHex12_count :
    ∀ (f : Nat) (l : List Char), l.length ≤ f → (∀ x ∈ l, isHexDigitPy x = true) →
      (findallHex12 f l).length = l.length / 12 := by
  intro f
  induction f with
  | zero =>
    intro l h1 _
    have hl : l = [] := List.eq_nil_of_length_eq_zero (by omega)
    subst hl
    rfl
  | succ f ih =>
    intro l h1 hhex
    cases l with
    | nil => rfl
    | cons c cs =>
      by_cases h12 : 12 ≤ (c :: cs).length
      · have htake : ((c :: cs).take 12).length = 12 := by
          rw [List.length_take]
          omega
        have hcond : (decide (((c :: cs).take 12).length = 12)
            && ((c :: cs).take 12).all isHexDigitPy) = true := by
          simp only [Bool.and_eq_true, decide_eq_true_eq]
          refine ⟨htake, List.all_eq_true.mpr ?_⟩
          intro x hx
          exact hhex x (List.take_subset 12 (c :: cs) hx)
        simp only [findallHex12]
        rw [if_pos hcond]
        simp only [List.length_cons]
        rw [ih]
        · rw [List.length_drop]
          simp only [List.length_cons] at h12 h1 ⊢
          omega
        · rw [List.length_drop]
          simp only [List.length_cons] at h1 ⊢
          omega
        · intro x hx
          exact hhex x (List.drop_subset 12 (c :: cs) hx)
      · rw [findallHex12_short (f + 1) (c :: cs) hhex (by omega)]
        simp only [List.length_nil]
        omega

theorem findallHex12_split :
    ∀ (f : Nat) (a : List Char) (c : Char) (b : List Char), isHexDigitPy c = false →
      (a ++ c :: b).length ≤ f →
      findallHex12 f (a ++ c :: b) = findallHex12 f a ++ findallHex12 f b := by
  intro f
  induction f with
  | zero =>
    intro a c b _ h1
    simp at h1
  | succ f ih =>
    intro a c b hc h1
    cases a with
    | nil =>
      have htk : (c :: b).take 12 = c :: b.take 11 := rfl
      have hcond : (decide (((c :: b).take 12).length = 12)
          && ((c :: b).take 12).all isHexDigitPy) = false := by
        have hall : ((c :: b).take 12).all isHexDigitPy = false := by
          rw [htk]
          simp [hc]
        rw [hall, Bool.and_false]
      simp only [List.nil_append, findallHex12]
      rw [if_neg (by simp only [hcond]; decide)]
      exact findallHex12_fuel f b (f + 1) (by simp at h1; omega) (by simp at h1; omega)
    | cons x xs =>
      have hxeq : (x :: xs) ++ c :: b = x :: (xs ++ c :: b) := rfl
      by_cases h12 : 12 ≤ (x :: xs).length
      · have htake : (x :: (xs ++ c :: b)).take 12 = (x :: xs).take 12 := by
          rw [← hxeq, List.take_append_eq_append_take,
            show 12 - (x :: xs).length = 0 from by omega]
          simp
        have hdrop : (x :: (xs ++ c :: b)).drop 12 = (x :: xs).drop 12 ++ c :: b := by
          rw [← hxeq, List.drop_append_eq_append_drop,
            show 12 - (x :: xs).length = 0 from by omega]
          simp
        rcases hcond : (decide (((x :: xs).take 12).length = 12)
            && ((x :: xs).take 12).all isHexDigitPy) with _ | _
        · -- the 12-character window fails in both scans
          have hcondL : (decide (((x :: (xs ++ c :: b)).take 12).length = 12)
              && ((x :: (xs ++ c :: b)).take 12).all isHexDigitPy) = false := by
            rw [htake]
            exact hcond
          rw [hxeq]
          simp only [findallHex12]
          rw [if_neg (by simp only [hcondL]; decide), if_neg (by simp only [hcond]; decide)]
          rw [ih xs c b hc (by simp at h1 ⊢; omega)]
          congr 1
          exact findallHex12_fuel f b (f + 1) (by simp at h1; omega) (by simp at h1; omega)
        · -- the 12-character window matches in both scans
          have hcondL : (decide (((x :: (xs ++ c :: b)).take 12).length = 12)
              && ((x :: (xs ++ c :: b)).take 12).all isHexDigitPy) = true := by
            rw [htake]
            exact hcond
          rw [hxeq]
          simp only [findallHex12]
          rw [if_pos hcondL, if_pos hcond, htake, hdrop]
          rw [ih ((x :: xs).drop 12) c b hc (by simp at h1 ⊢; omega)]
          simp only [List.cons_append]
          congr 2
          exact findallHex12_fuel f b (f + 1) (by simp at h1; omega) (by simp at h1; omega)
      · -- the pre-separator part is shorter than 12: the window spans c and fails
        have htkc : (c :: b).take (12 - (x :: xs).length) =
            c :: b.take (11 - (x :: xs).length) := by
          rw [show 12 - (x :: xs).length = (11 - (x :: xs).length) + 1 from by omega]
          rfl
        have hwin : ((x :: (xs ++ c :: b)).take 12).all isHexDigitPy = false := by
          rw [← hxeq, List.take_append_eq_append_take, htkc]
          rcases hall : ((x :: xs).take 12 ++ c :: b.take (11 - (x :: xs).length)).all
              isHexDigitPy with _ | _
          · rfl
          · have hmem : c ∈ (x :: xs).take 12 ++ c :: b.take (11 - (x :: xs).length) := by
              apply List.mem_append_right
              simp
            have := List.all_eq_true.mp hall c hmem
            rw [hc] at this
            cases this
        have hcondL : (decide (((x :: (xs ++ c :: b)).take 12).length = 12)
            && ((x :: (xs ++ c :: b)).take 12).all isHexDigitPy) = false := by
          rw [hwin, Bool.and_false]
        have hcondR : (decide (((x :: xs).take 12).length = 12)
            && ((x :: xs).take 12).all isHexDigitPy) = false := by
          have hw2 : ((x :: xs).take 12).length ≠ 12 := by
            rw [List.length_take]
            omega
          have hd : decide (((x :: xs).take 12).length = 12) = false := by simpa using hw2
          rw [hd, Bool.false_and]
        rw [hxeq]
        simp only [findallHex12]
        rw [if_neg (by simp only [hcondL]; decide), if_neg (by simp only [hcondR]; decide)]
        rw [ih xs c b hc (by simp at h1 ⊢; omega)]
        congr 1
        exact findallHex12_fuel f b (f + 1) (by simp at h1; omega) (by simp at h1; omega)

/-- C6 counterexample: the value `0123456789abc` is one contiguous run of 13
hexadecimal digits — not 12 — yet the interpreter emits one MacAddressRecord
(for the first 12 digits), where the claim says a run of any length other
than 12 contributes no record. -/
theorem lastmac_thirteen_run_counterexample :
    "0123456789abc".data.length = 13
    ∧ (∀ x ∈ "0123456789abc".data, isHexDigitPy x = true)
    ∧ interpretLastMAC "0123456789abc" = ["0123456789ab"] := by decide

/-- C6 (amended): `LastMACUsed` emits one MacAddressRecord per non-overlapping
12-hex-digit match of a greedy left-to-right scan: an all-hex run shorter
than 12 contributes no record, a run of exactly 12 contributes one record
carrying the run itself, an all-hex run of length L contributes ⌊L/12⌋
records, and a non-hex character splits the scan so that these counts apply
to each maximal hex run of the value independently. -/
theorem lastmac_greedy_matches :
    (∀ b : List Char, (∀ x ∈ b, isHexDigitPy x = true) → b.length < 12 →
      interpretLastMAC ⟨b⟩ = [])
    ∧ (∀ b : List Char, (∀ x ∈ b, isHexDigitPy x = true) → b.length = 12 →
      interpretLastMAC ⟨b⟩ = [⟨b⟩])
    ∧ (∀ b : List Char, (∀ x ∈ b, isHexDigitPy x = true) →
      (interpretLastMAC ⟨b⟩).length = b.length / 12)
    ∧ (∀ (a : List Char) (c : Char) (b : List Char), isHexDigitPy c = false →
      interpretLastMAC ⟨a ++ c :: b⟩ = interpretLastMAC ⟨a⟩ ++ interpretLastMAC ⟨b⟩) := by
  refine ⟨?_, ?_, ?_, ?_⟩
  · intro b hhex hlen
    exact findallHex12_short _ b hhex hlen
  · intro b hhex hlen
    exact findallHex12_exact _ b (by simp [interpretLastMAC]; omega) hhex hlen
  · intro b hhex
    exact findallHex12_count _ b le_rfl hhex
  · intro a c b hc
    show findallHex12 (a ++ c :: b).length (a ++ c :: b) =
      findallHex12 a.length a ++ findallHex12 b.length b
    rw [findallHex12_split (a ++ c :: b).length a c b hc le_rfl]
    congr 1
    · exact findallHex12_fuel _ a a.length (by simp) le_rfl
    · exact findallHex12_fuel _ b b.length (by simp; omega) le_rfl

/-- Witness for C6's amended claim: a 12-hex-digit value yields exactly one
record carrying the value. -/
theorem lastmac_greedy_matches_witness :
    interpretLastMAC ⟨"00ffab12cd34".data⟩ = [⟨"00ffab12cd34".data⟩] :=
  lastmac_greedy_matches.2.1 "00ffab12cd34".data (by decide) (by decide)

/-! ## IP-scanner claim (C7) -/

theorem grabGroup_digits :
    ∀ l ds r, grabGroup l = some (ds, r) →
      (∀ x ∈ ds, Char.isDigit x = true) ∧ 1 ≤ ds.length ∧ ds.length ≤ 3 := by
  intro l ds r h
  simp only [grabGroup] at h
  split at h
  next hcond =>
    rw [Bool.and_eq_true] at hcond
    simp only [decide_eq_true_eq] at hcond
    split at h
    next => cases h; exact ⟨fun x hx => List.mem_takeWhile_imp hx, hcond.1, hcond.2⟩
    next => cases h
  next => cases h

theorem grabLast_digits :
    ∀ l ds r, grabLast l = some (ds, r) →
      (∀ x ∈ ds, Char.isDigit x = true) ∧ 1 ≤ ds.length ∧ ds.length ≤ 3 := by
  intro l ds r h
  simp only [grabLast] at h
  split at h
  next hcond =>
    rw [Bool.and_eq_true] at hcond
    simp only [decide_eq_true_eq] at hcond
    split at h
    next => cases h; exact ⟨fun x hx => List.mem_takeWhile_imp hx, hcond.1, hcond.2⟩
    next =>
      split at h
      next => cases h
      next => cases h; exact ⟨fun x hx => List.mem_takeWhile_imp hx, hcond.1, hcond.2⟩
  next => cases h

theorem dot_not_mem_digits (ds : List Char) (hd : ∀ x ∈ ds, Char.isDigit x = true) :
    '.' ∉ ds := by
  intro hmem
  have := hd '.' hmem
  cases this

theorem matchQuad_shape :
    ∀ l m rest, matchQuad l = some (m, rest) → specDottedQuad ⟨m⟩ = true := by
  intro l m rest h
  simp only [matchQuad] at h
  split at h
  next => cases h
  next d1 r1 h1 =>
    split at h
    next => cases h
    next d2 r2 h2 =>
      split at h
      next => cases h
      next d3 r3 h3 =>
        split at h
        next => cases h
        next d4 r4 h4 =>
          cases h
          rcases grabGroup_digits _ _ _ h1 with ⟨hd1, hl1, hu1⟩
          rcases grabGroup_digits _ _ _ h2 with ⟨hd2, hl2, hu2⟩
          rcases grabGroup_digits _ _ _ h3 with ⟨hd3, hl3, hu3⟩
          rcases grabLast_digits _ _ _ h4 with ⟨hd4, hl4, hu4⟩
          have hsplit : splitList '.' (d1 ++ ('.' :: (d2 ++ ('.' :: (d3 ++ ('.' :: d4)))))) =
              [d1, d2, d3, d4] := by
            rw [splitList_append_sep '.' d1 _ (dot_not_mem_digits d1 hd1),
              splitList_append_sep '.' d2 _ (dot_not_mem_digits d2 hd2),
              splitList_append_sep '.' d3 _ (dot_not_mem_digits d3 hd3),
              splitList_of_not_mem '.' d4 (dot_not_mem_digits d4 hd4)]
          simp only [specDottedQuad]
          simp only [hsplit, List.length_cons, List.length_nil, List.all_cons, List.all_nil,
            Bool.and_eq_true, decide_eq_true_eq]
          exact ⟨trivial, ⟨⟨hl1, hu1⟩, List.all_eq_true.mpr hd1⟩,
            ⟨⟨hl2, hu2⟩, List.all_eq_true.mpr hd2⟩, ⟨⟨hl3, hu3⟩, List.all_eq_true.mpr hd3⟩,
            ⟨⟨hl4, hu4⟩, List.all_eq_true.mpr hd4⟩, trivial⟩

theorem scanIpAux_sound :
    ∀ (f : Nat) (prev : Bool) (l : List Char) (s : String),
      s ∈ scanIpAux f prev l → specDottedQuad s = true := by
  intro f
  induction f with
  | zero =>
    intro prev l s h
    simp [scanIpAux] at h
  | succ f ih =>
    intro prev l s h
    cases l with
    | nil => simp [scanIpAux] at h
    | cons c cs =>
      simp only [scanIpAux] at h
      cases prev with
      | true =>
        rw [if_pos rfl] at h
        exact ih _ _ _ h
      | false =>
        rw [if_neg (by decide)] at h
        rcases hm : matchQuad (c :: cs) with _ | ⟨m, rest⟩ <;> rw [hm] at h
        · exact ih _ _ _ h
        · rcases List.mem_cons.mp h with rfl | h2
          · exact matchQuad_shape _ _ _ hm
          · exact ih _ _ _ h2

/-- C7 counterexample: in `1.2.3.4.5` the substring `2.3.4.5` consists of
four dot-separated 1-digit groups and is bounded by word edges (preceded by
the non-word character `.` and followed by the end of the string), yet the
scan returns only `1.2.3.4`: overlapping candidates are not all returned,
because `findall` resumes after each match. -/
theorem ip_scan_overlap_counterexample :
    identifyIpAddresses "1.2.3.4.5" = ["1.2.3.4"]
    ∧ specDottedQuad "2.3.4.5" = true
    ∧ "1.2.3.4.5".data = "1.".data ++ "2.3.4.5".data
    ∧ isWordChar '.' = false
    ∧ ("2.3.4.5" : String) ∉ identifyIpAddresses "1.2.3.4.5" := by decide

/-- C7 (amended): the scanner returns, in left-to-right order, the
non-overlapping matches of four dot-separated 1-to-3-digit groups bounded
by word edges, resuming after each match (so overlapping candidates are not
all returned); every returned string consists of four dot-separated
1-to-3-digit groups, with no octet-range validation — in particular
`scan("foo 10.0.0.1 bar 999.1.2.3 baz")` returns `["10.0.0.1",
"999.1.2.3"]`, accepting the out-of-range `999`. -/
theorem ip_scan_pattern :
    (∀ value s : String, s ∈ identifyIpAddresses value → specDottedQuad s = true)
    ∧ identifyIpAddresses "foo 10.0.0.1 bar 999.1.2.3 baz" = ["10.0.0.1", "999.1.2.3"]
    ∧ specDottedQuad "999.1.2.3" = true := by
  refine ⟨?_, by decide, by decide⟩
  intro value s h
  exact scanIpAux_sound _ _ _ _ h

/-- Witness for C7's amended claim: the scanner's first result on the
spec's example input has the dotted-quad shape. -/
theorem ip_scan_pattern_witness :
    specDottedQuad "10.0.0.1" = true :=
  ip_scan_pattern.1 "foo 10.0.0.1 bar 999.1.2.3 baz" "10.0.0.1" (by decide)

/-! ## Session-file claim (C9) -/

theorem drop_length_takeWhile (p : Char → Bool) :
    ∀ l : List Char, l.drop (l.takeWhile p).length = l.dropWhile p := by
  intro l
  induction l with
  | nil => rfl
  | cons x xs ih =>
    cases hx : p x <;> simp [List.takeWhile_cons, List.dropWhile_cons, hx, ih]

theorem dropWhile_head_false (p : Char → Bool) :
    ∀ (l : List Char) (y : Char) (ys : List Char), l.dropWhile p = y :: ys → p y = false := by
  intro l
  induction l with
  | nil => intro y ys h; cases h
  | cons x xs ih =>
    intro y ys h
    rw [List.dropWhile_cons] at h
    split at h
    next hpx => exact ih y ys h
    next hpx =>
      cases h
      simpa using hpx

/-- Only a file whose entire content is exactly `TVS` — with no trailing
newline — can make the first `readline()` result equal `"TVS"`: any
terminated first line keeps its `"\n"`. -/
theorem fileReadlines_head_tvs :
    ∀ content : List Char,
      (fileReadlines content).getD 0 "" = "TVS" → content = "TVS".data := by
  intro content h
  cases content with
  | nil => exact absurd h (by decide)
  | cons c cs =>
    have hfa : fileReadlines (c :: cs) = fileReadlinesAux (cs.length + 1) (c :: cs) := by
      simp [fileReadlines]
    rw [hfa] at h
    simp only [fileReadlinesAux] at h
    rw [drop_length_takeWhile] at h
    rcases hd : (c :: cs).dropWhile (fun x => x ≠ '\n') with _ | ⟨y, ys⟩
    · -- no newline in the content: the single produced line is the content
      rw [hd] at h
      have hcontent : (c :: cs).takeWhile (fun x => x ≠ '\n') = c :: cs := by
        have := List.takeWhile_append_dropWhile (p := fun x => x ≠ '\n') (l := c :: cs)
        rw [hd, List.append_nil] at this
        exact this
      simp only [List.getD_cons_zero] at h
      have hdata : (c :: cs).takeWhile (fun x => x ≠ '\n') = "TVS".data := by
        have := congrArg String.data h
        exact this
      rw [hcontent] at hdata
      exact hdata
    · -- the first line is newline-terminated, so it cannot equal "TVS"
      have hy : y = '\n' := by
        have := dropWhile_head_false _ _ _ _ hd
        simpa using this
      subst hy
      rw [hd] at h
      simp only [List.getD_cons_zero] at h
      have hdata := congrArg String.data h
      have hlast := congrArg List.getLast? hdata
      rw [List.getLast?_concat] at hlast
      simp at hlast

/-- C9: the claim (and the spec) describe the intended behavior, but the
code can never exhibit it.  `fp.readline()` keeps each line's trailing
newline, so `line == "TVS"` rejects every file whose first line is
terminated — including the claim's example file — and `line == ""` is an
end-of-file test, not an empty-line test.  The only accepted content is the
three characters `TVS` with no newline, after which the first loop
iteration reads `""` (end of file) and returns before parsing anything: no
session file ever yields an identity or username record. -/
theorem session_files_never_yield_identities :
    (∀ content : List Char,
      (processSessionFile (fileReadlines content)).identities = []
      ∧ (processSessionFile (fileReadlines content)).usernames = [])
    ∧ processSessionFile (fileReadlines "TVS\nClientID 55512345\n".data) =
        ⟨false, [], [], []⟩
    ∧ processSessionFile (fileReadlines "TVS".data) = ⟨true, [], [], []⟩ := by
  refine ⟨?_, by decide, by decide⟩
  intro content
  by_cases hmark : (fileReadlines content).getD 0 "" = "TVS"
  · have hc := fileReadlines_head_tvs content hmark
    subst hc
    constructor <;> decide
  · simp only [processSessionFile]
    rw [if_neg hmark]
    exact ⟨rfl, rfl⟩

/-- Witness for C10: an 8-token incoming line is accepted and its last
token becomes the connection type. -/
theorem incoming_eight_token_line_witness :
    ∃ r : ConnectionRecord,
      (createTeamViewerConnectionArtefacts
        ["555111222", "Controller", "01-02-2021", "10:00:00", "01-02-2021",
         "10:05:00", "winuser", "RemoteControl"]
        (directionFromPath "/img/Users/x/AppData/connections_incoming.txt")).connection = some r
      ∧ r.connectionType = "RemoteControl"
      ∧ (["555111222", "Controller", "01-02-2021", "10:00:00", "01-02-2021",
          "10:05:00", "winuser", "RemoteControl"] : List String).getLast? =
          some r.connectionType :=
  incoming_eight_token_line "/img/Users/x/AppData/connections_incoming.txt"
    ["555111222", "Controller", "01-02-2021", "10:00:00", "01-02-2021",
     "10:05:00", "winuser", "RemoteControl"] (by decide) (by decide) (by decide)

end TeamViewer

